import Mathlib

/-!
Verification development for the rapidus bytecode virtual machine.

This file gives a shallow embedding of the parts of the interpreter that the
verified properties are about, translated from the Rust sources:

* `src/vm/vm.rs`     — the instruction handlers of the current VM
                       (`set_member`, `call` / `call_function`, `return_`,
                       `jmp_if_false`, `eq`, `ne`, `rem`);
* `src/vm/callobj.rs` — the call object (lexical environment record);
* `src/vm.rs`        — the previous VM generation (`obj_find_val`,
                       the Array branch of `get_member`).

Modelling conventions:

* Rust `f64` numbers are modelled as rationals (`Rat`).  The model has no
  NaN or infinities; where a float-to-integer cast matters (the `Rem`
  instruction) the truncating, saturating semantics of Rust `as` is made
  explicit on the rational model.
* Rust `usize` array indices are modelled as unbounded `Nat`: a `Vec` of
  `2 ^ 64` elements is not realizable, so index overflow cannot matter for
  any executable behavior.
* A Rust panic (`unwrap` on an empty stack, out-of-bounds indexing,
  `Vec::drain` with a reversed range, integer remainder overflow or zero
  divisor) is modelled by `Option.none` or a dedicated `crash` result.
* Heap-shared mutable records (`Rc<RefCell<...>>`, `gc` handles) are
  modelled by explicit state passing; hash maps become functions
  `String → Option _` updated pointwise.
-/

/-- The tagged value union `ValueBase` of `src/vm/value.rs` (payloads of
heap kinds become numeric handles; the `f64` payload becomes `Rat`). -/
inductive Value where
  | empty
  | undefined
  | null
  | bool (b : Bool)
  | number (q : Rat)
  | string (s : String)
  | object (h : Nat)
  | array (h : Nat)
  | function (h : Nat)
  | builtinFunction (h : Nat)
  | arguments
  deriving Repr, DecidableEq

/-- The error taxonomy `RuntimeError` of `src/vm/error.rs` (the constructor
called `Type` in the source is renamed: `Type` is reserved in Lean). -/
inductive RuntimeError where
  | typeError (msg : String)
  | reference (msg : String)
  | general (msg : String)
  | unimplemented
  deriving Repr, DecidableEq

/-- Constructor tag of a value; two values are "like-typed" (the same
`ValueBase` variant) exactly when their tags agree. -/
def valueTag : Value → Nat
  | .empty => 0
  | .undefined => 1
  | .null => 2
  | .bool _ => 3
  | .number _ => 4
  | .string _ => 5
  | .object _ => 6
  | .array _ => 7
  | .function _ => 8
  | .builtinFunction _ => 9
  | .arguments => 10

/-- The array payload `ArrayValue` of the source: the dense element vector,
the array-level `length`, and the string-keyed property map `obj`. -/
structure ArrayValue where
  elems : List Value
  length : Nat
  obj : String → Option Value

/-- Pads a list with `Value.empty` up to `k` entries; this is the
`while elems.len() < k { elems.push(Value::empty()) }` loop of the source. -/
def padTo (l : List Value) (k : Nat) : List Value :=
  l ++ List.replicate (k - l.length) Value.empty

/-- The local function `set_by_idx` inside `set_member` (src/vm/vm.rs):
if `n >= length` set `length = n + 1` and pad `elems` to `n + 1` entries,
then write `elems[n] = val`.  The final indexed store panics when `n` is
still out of bounds of `elems` (only possible when `length` and `elems`
had desynchronized), modelled by `none`. -/
def set_by_idx (a : ArrayValue) (n : Nat) (val : Value) : Option ArrayValue :=
  let a' := if a.length ≤ n then
      { a with length := n + 1, elems := padTo a.elems (n + 1) }
    else a
  if n < a'.elems.length then
    some { a' with elems := a'.elems.set n val }
  else
    none

/-- Modelled from the spec: `Value::to_string` used to build property keys
lives in `src/vm/value.rs`, which is not part of the sources; following the
spec's conventional `to_string` coercion.  Integral numbers print as their
decimal digits; the formatting of the remaining cases is not exercised by
any verified claim. -/
def valToKey : Value → String
  | .string s => s
  | .number q => if q.den = 1 then toString q.num else toString q
  | .bool b => if b then "true" else "false"
  | .undefined => "undefined"
  | .null => "null"
  | .empty => ""
  | _ => "[object]"

/-- Modelled from the spec: the canonical array-index test of `set_member`
(`Value::number(member.val.to_uint32()).to_string() == s`); `to_uint32`
is defined in the missing `src/vm/value.rs`.  A string passes exactly when
it is the canonical decimal numeral of an unsigned 32-bit integer.  This
branch is not exercised by any verified claim. -/
def canonicalIndex (s : String) : Option Nat :=
  match s.toNat? with
  | some k => if k < 2 ^ 32 ∧ toString k = s then some k else none
  | none => none

/-- The `ValueBase::Array` branch of `set_member` (src/vm/vm.rs):
integral non-negative `Number` members write through `set_by_idx`; the
string `"length"` with an integral non-negative `Number` value sets
`length` and pads `elems` to `length + 1` entries (never truncating);
strings in canonical index form also write through `set_by_idx`; every
other member writes the string-keyed `obj` map.
The guard `(q.floor : Rat) = q ∧ 0 ≤ q` is the source condition
`n - n.floor() == 0.0 && n >= 0.0`. -/
def array_set_member (a : ArrayValue) (member val : Value) : Option ArrayValue :=
  match member with
  | .number q =>
    if (q.floor : Rat) = q ∧ 0 ≤ q then
      set_by_idx a q.floor.toNat val
    else
      some { a with obj := fun s => if s = valToKey member then some val else a.obj s }
  | .string s =>
    if s = "length" then
      match val with
      | .number q =>
        if (q.floor : Rat) = q ∧ 0 ≤ q then
          some { a with length := q.floor.toNat,
                        elems := padTo a.elems (q.floor.toNat + 1) }
        else
          some a
      | _ => some a
    else
      match canonicalIndex s with
      | some k => set_by_idx a k val
      | none =>
        some { a with obj := fun t => if t = s then some val else a.obj t }
  | _ =>
    some { a with obj := fun s => if s = valToKey member then some val else a.obj s }

/-- The Array integer-index read of `get_member` (src/vm.rs): an index at
or beyond `length` reads as `Undefined`; otherwise the element vector is
indexed (the source `arr[n]` panics when `elems` is shorter, modelled by
`none`).  This also realizes the spec's `get_property` policy for Arrays
on integer members. -/
def array_get_index (a : ArrayValue) (n : Nat) : Option Value :=
  if a.length ≤ n then some Value.undefined
  else a.elems.get? n

/-- Modelled from the spec: the Data property descriptor
`{ value, writable, enumerable, configurable }`; the concrete defaults of
`Property::new` live in the missing `src/vm/value.rs`.  Only the `val`
field is consumed by the call-object operations verified here. -/
structure Property where
  val : Value
  writable : Bool
  enumerable : Bool
  configurable : Bool

/-- `Property::new(val)`; the flag defaults are irrelevant to every
verified claim. -/
def Property.new (v : Value) : Property :=
  ⟨v, true, true, true⟩

/-- The call object (lexical environment record) of `src/vm/callobj.rs`.
The `parent` back-pointer is represented externally: a scope chain is a
`List CallObject` with the receiver first and the root last. -/
structure CallObject where
  vals : String → Option Property
  rest_params : Option String
  arguments : List (Option String × Value)
  this : Value

/-- `CallObject::new` (the `parent` of the source is `None`, i.e. the
chain containing just this record). -/
def CallObject.new (this : Value) : CallObject :=
  { vals := fun _ => none, rest_params := none, arguments := [], this := this }

instance : Inhabited CallObject := ⟨CallObject.new Value.undefined⟩

/-- `CallObject::set_value`: insert or overwrite a binding. -/
def CallObject.set_value (co : CallObject) (name : String) (v : Value) : CallObject :=
  { co with vals := fun s => if s = name then some (Property.new v) else co.vals s }

/-- `CallObject::get_local_value`: local-only lookup; a miss is the
internal `General` error of the source. -/
def CallObject.get_local_value (co : CallObject) (name : String) :
    Except RuntimeError Value :=
  match co.vals name with
  | some p => .ok p.val
  | none => .error (.general
      "get_local_value(): the argument did not found in local scope.")

/-- `CallObject::get_arguments_nth_value`: a slot carrying a declared
parameter name delegates to `get_local_value`; an anonymous slot returns
the stored value; an out-of-range index returns `Undefined`. -/
def CallObject.get_arguments_nth_value (co : CallObject) (n : Nat) :
    Except RuntimeError Value :=
  match co.arguments.get? n with
  | some (some name, _) => co.get_local_value name
  | some (none, v) => .ok v
  | none => .ok Value.undefined

/-- `CallObject::set_arguments_nth_value`: a named slot stores through the
parameter binding; an anonymous slot stores in place; an out-of-range
index is ignored. -/
def CallObject.set_arguments_nth_value (co : CallObject) (n : Nat) (v : Value) :
    CallObject :=
  match co.arguments.get? n with
  | some (some name, _) => co.set_value name v
  | some (none, _) => { co with arguments := co.arguments.set n (none, v) }
  | none => co

/-- `CallObject::get_value` on a scope chain (receiver first, root last):
walk through `parent` until the name is found; reaching the end of the
chain is the `Reference` error of the source. -/
def chain_get_value : List CallObject → String → Except RuntimeError Value
  | [], name => .error (.reference
      ("reference error: " ++ name ++ " is not defined"))
  | co :: rest, name =>
    match co.vals name with
    | some p => .ok p.val
    | none => chain_get_value rest name

/-- `CallObject::set_value_if_exist` on a scope chain: an occupied entry
is overwritten in place; a vacant entry defers to the parent when there is
one and is created in the root otherwise. -/
def chain_set_value_if_exist : List CallObject → String → Value → List CallObject
  | [], _, _ => []
  | co :: rest, name, v =>
    match co.vals name with
    | some _ => co.set_value name v :: rest
    | none =>
      match rest with
      | [] => [co.set_value name v]
      | _ :: _ => co :: chain_set_value_if_exist rest name v

/-- Index of the nearest call object in a chain that binds `name`
(`none` when no member of the chain binds it). -/
def firstBindingIdx : List CallObject → String → Option Nat
  | [], _ => none
  | co :: rest, name =>
    if (co.vals name).isSome then some 0
    else (firstBindingIdx rest name).map (· + 1)

/-- The interpreter state `VMState` of `src/vm/vm.rs`: the operand stack
(`Vec` order: index 0 is the bottom, the last entry is the top of stack),
the scope stack of call objects (here: head is the top), the instruction
pointer, and the return history of `(saved_sp, return_pc)` pairs (head is
the most recent). -/
structure VMState where
  stack : List Value
  scope : List CallObject
  pc : Int
  history : List (Nat × Int)

/-- `Vec::pop` on the operand stack: removes and returns the last entry;
`none` models the `unwrap` panic on an empty stack. -/
def vecPop (s : List Value) : Option (Value × List Value) :=
  match s.getLast? with
  | none => none
  | some v => some (v, s.dropLast)

/-- The frame set-up of a `Call(argc)` that dispatches to a user
`Function` and is interpreted (the JIT hook `can_jit` declined): the
handler advances `pc` past the opcode and its 32-bit immediate (5 bytes),
pops the callee and `argc` actuals, pushes the callee's call object onto
`scope`, records `(stack.len(), pc)` in `history`, and sets `pc = 0`
(src/vm/vm.rs, `call` and `call_function`).  `none` models the `unwrap`
panic when the stack holds fewer than `argc + 1` entries. -/
def call_enter (st : VMState) (argc : Nat) (co : CallObject) : Option VMState :=
  if argc + 1 ≤ st.stack.length then
    some { stack := st.stack.take (st.stack.length - (argc + 1)),
           scope := co :: st.scope,
           pc := 0,
           history := (st.stack.length - (argc + 1), st.pc + 5) :: st.history }
  else none

/-- The `Return` handler `return_` (src/vm/vm.rs): pop
`(previous_sp, return_pc)` from `history`, remove the stack entries
`[previous_sp, len - 1)` (keeping the top of stack as the return value)
and set `pc = return_pc`.  `none` models the `unreachable` on an empty
history and the `Vec::drain` panic when `previous_sp > len - 1`. -/
def return_step (st : VMState) : Option VMState :=
  match st.history with
  | [] => none
  | (previous_sp, return_pc) :: rest =>
    if previous_sp + 1 ≤ st.stack.length then
      some { stack := st.stack.take previous_sp
                        ++ st.stack.drop (st.stack.length - 1),
             scope := st.scope,
             pc := return_pc,
             history := rest }
    else none

/-- The scope pop performed by `call_function` after the callee's
`do_run` returns. -/
def call_exit (st : VMState) : VMState :=
  { st with scope := st.scope.tail }

/-- The conditional `pc` adjustment of `JmpIfFalse`: the source's
`if let ValueBase::Bool(false) = cond.val { pc += dst }`. -/
def jmpDelta (cond : Value) (dst : Int) : Int :=
  match cond with
  | Value.bool false => dst
  | _ => 0

/-- The `JmpIfFalse(dst)` handler (src/vm/vm.rs, identically src/vm.rs):
advance `pc` past the opcode and its 32-bit immediate, pop the condition,
and add the signed offset to `pc` exactly when the condition is
`Bool(false)`; `none` models the pop on an empty stack. -/
def jmp_if_false_step (st : VMState) (dst : Int) : Option VMState :=
  match vecPop st.stack with
  | none => none
  | some (cond, rest) =>
    some { stack := rest,
           scope := st.scope,
           pc := st.pc + 5 + jmpDelta cond dst,
           history := st.history }

/-- The value computation of the `Eq` handler (src/vm/vm.rs): only
`Number`/`Number` and `String`/`String` operand pairs compare; everything
else is the `Unimplemented` error.  The handler pops `rhs` then `lhs` and
pushes the `ok` result. -/
def eq_op (l r : Value) : Except RuntimeError Value :=
  match l, r with
  | .number a, .number b => .ok (.bool (decide (a = b)))
  | .string a, .string b => .ok (.bool (decide (a = b)))
  | _, _ => .error .unimplemented

/-- The value computation of the `Ne` handler (src/vm/vm.rs): like `eq_op`
plus the `Null`/`Null` and `Undefined`/`Undefined` cases (both `false`). -/
def ne_op (l r : Value) : Except RuntimeError Value :=
  match l, r with
  | .null, .null => .ok (.bool false)
  | .undefined, .undefined => .ok (.bool false)
  | .number a, .number b => .ok (.bool (!decide (a = b)))
  | .string a, .string b => .ok (.bool (!decide (a = b)))
  | _, _ => .error .unimplemented

/-- Result of a binary-operator handler: a pushed value, a returned
`RuntimeError`, or an interpreter panic. -/
inductive BinResult where
  | ok (v : Value)
  | err (e : RuntimeError)
  | crash
  deriving Repr, DecidableEq

def i64Min : Int := -(2 ^ 63)

def i64Max : Int := 2 ^ 63 - 1

/-- Truncation of a rational toward zero (the rounding of Rust's
float-to-integer `as` cast). -/
def ratTrunc (q : Rat) : Int :=
  if 0 ≤ q then q.floor else -((-q).floor)

/-- Rust `f64 as i64` on the rational model of `f64`: truncate toward
zero and saturate to the `i64` range.  (`NaN`, which casts to 0, has no
rational representative.) -/
def f64_to_i64 (q : Rat) : Int :=
  max i64Min (min i64Max (ratTrunc q))

/-- Rust `%` on `i64`: the truncated remainder `Int.tmod`; `none` models
the panic on a zero divisor and on the overflowing pair
`(i64::MIN, -1)`. -/
def i64_rem (a b : Int) : Option Int :=
  if b = 0 then none
  else if a = i64Min ∧ b = -1 then none
  else some (a.tmod b)

/-- The value computation of the `Rem` handler (src/vm/vm.rs, identically
the `Rem` arm of `binary` in src/vm.rs): `(l as i64 % r as i64) as f64`
for `Number` operands, `Unimplemented` otherwise.  The conversion of the
remainder back to `f64` is exact in the rational model (the remainder's
magnitude is below `2 ^ 63`; `f64` rounds above `2 ^ 53`). -/
def rem_op (l r : Value) : BinResult :=
  match l, r with
  | .number a, .number b =>
    match i64_rem (f64_to_i64 a) (f64_to_i64 b) with
    | some m => .ok (.number (m : Rat))
    | none => .crash
  | _, _ => .err .unimplemented

/-- The value union of the previous VM generation (src/vm.rs). -/
inductive OldValue where
  | undefined
  | bool (b : Bool)
  | number (q : Rat)
  | string (s : String)
  | function (pos : Nat) (obj : Nat)
  | needThis (callee : OldValue)
  | withThis (callee : OldValue) (this : OldValue)
  | builtinFunction (id : Nat)
  | object (h : Nat)
  | array (h : Nat)
  | arguments
  deriving Repr, DecidableEq

/-- A heap of old-VM property maps: each `Rc<RefCell<HashMap<String,
Value>>>` handle resolves to a map from keys to values. -/
def OldHeap : Type := Nat → String → Option OldValue

/-- `obj_find_val` (src/vm.rs): return `obj[key]` if present, otherwise
recurse into `obj["__proto__"]` when that value is an `Object`, otherwise
return `Undefined`.  The source recursion carries no bound; the explicit
`fuel` counts recursive calls, and `none` means the source has not
returned within `fuel` steps — `obj_find_val` terminates on the given
heap, handle and key iff some fuel yields `some`. -/
def obj_find_val (heap : OldHeap) (fuel : Nat) (h : Nat) (key : String) :
    Option OldValue :=
  match fuel with
  | 0 => none
  | fuel' + 1 =>
    match heap h key with
    | some v => some v
    | none =>
      match heap h "__proto__" with
      | some (OldValue.object h2) => obj_find_val heap fuel' h2 key
      | _ => some OldValue.undefined

/-- A heap holding one object, handle 0, whose only property is
`__proto__` pointing at itself — the minimal cyclic prototype chain
(buildable in source programs via `__proto__` assignment). -/
def cyclicHeap : OldHeap :=
  fun h key =>
    if h = 0 ∧ key = "__proto__" then some (OldValue.object 0) else none

/-! ## Theorems -/

/-- C4: on the minimal cyclic prototype chain (an object whose
`__proto__` is itself) a lookup of an absent key never returns: for every
recursion budget the walk is still running.  The source `obj_find_val`
carries no depth bound and no revisit check, so this run does not
terminate, refuting the claim that lookup terminates for every object and
key. -/
theorem obj_find_val_cycle_no_return (fuel : Nat) :
    obj_find_val cyclicHeap fuel 0 "x" = none := by
  induction fuel with
  | zero => rfl
  | succ n ih => simpa [obj_find_val, cyclicHeap] using ih

/-- C10: an out-of-range `arguments` access is benign: reading yields
`Undefined` without an error, and writing leaves the call object
unchanged. -/
theorem arguments_out_of_range_benign (co : CallObject) (n : Nat) (v : Value)
    (h : co.arguments.length ≤ n) :
    co.get_arguments_nth_value n = .ok Value.undefined ∧
    co.set_arguments_nth_value n v = co := by
  have hn : co.arguments.get? n = none := List.get?_eq_none.mpr h
  constructor
  · unfold CallObject.get_arguments_nth_value
    rw [hn]
  · unfold CallObject.set_arguments_nth_value
    rw [hn]

/-- Concrete call object for the C10 witness: one anonymous argument. -/
def argOneCo : CallObject :=
  { vals := fun _ => none, rest_params := none,
    arguments := [(none, Value.number 1)], this := Value.undefined }

/-- C10 witness: index 3 is past the single argument of `argOneCo`. -/
theorem arguments_out_of_range_benign_witness :
    argOneCo.arguments.length ≤ 3 ∧
    (argOneCo.get_arguments_nth_value 3 = .ok Value.undefined ∧
     argOneCo.set_arguments_nth_value 3 (Value.number 5) = argOneCo) :=
  ⟨by decide, arguments_out_of_range_benign argOneCo 3 (Value.number 5) (by decide)⟩

/-- C9: `JmpIfFalse` pops the condition and takes the jump exactly when
the condition is `Bool(false)`; every other value — `Number 0`,
`Undefined`, `Null`, the empty `String`, ... — falls through to the next
instruction (`pc + 5`), with no boolean coercion. -/
theorem jmp_if_false_only_bool_false (st : VMState) (dst : Int) (cond : Value)
    (rest : List Value) (h : st.stack = rest ++ [cond]) :
    ∃ st', jmp_if_false_step st dst = some st' ∧
      st'.stack = rest ∧ st'.scope = st.scope ∧ st'.history = st.history ∧
      (cond = Value.bool false → st'.pc = st.pc + 5 + dst) ∧
      (cond ≠ Value.bool false → st'.pc = st.pc + 5) := by
  have h1 : st.stack.getLast? = some cond := by
    rw [h]; exact List.getLast?_concat ..
  have h2 : st.stack.dropLast = rest := by
    rw [h]; exact List.dropLast_concat ..
  refine ⟨{ stack := st.stack.dropLast, scope := st.scope,
            pc := st.pc + 5 + jmpDelta cond dst,
            history := st.history }, ?_, h2, rfl, rfl, ?_, ?_⟩
  · unfold jmp_if_false_step vecPop
    rw [h1]
  · intro hc; subst hc; rfl
  · intro hc
    have hz : jmpDelta cond dst = 0 := by
      cases cond with
      | bool b => cases b with
        | false => exact absurd rfl hc
        | true => rfl
      | _ => rfl
    show st.pc + 5 + jmpDelta cond dst = st.pc + 5
    rw [hz, Int.add_zero]

/-- Concrete state for the C9 witness: `Number 0` on top of the stack. -/
def jmpSt : VMState := ⟨[Value.number 0], [], 100, []⟩

/-- C9 witness: the falsy-in-JavaScript value `Number 0` does not take
the jump. -/
theorem jmp_if_false_only_bool_false_witness :
    jmpSt.stack = [] ++ [Value.number 0] ∧
    (∃ st', jmp_if_false_step jmpSt 7 = some st' ∧
      st'.stack = [] ∧ st'.scope = jmpSt.scope ∧ st'.history = jmpSt.history ∧
      (Value.number 0 = Value.bool false → st'.pc = jmpSt.pc + 5 + 7) ∧
      (Value.number 0 ≠ Value.bool false → st'.pc = jmpSt.pc + 5)) :=
  ⟨rfl, jmp_if_false_only_bool_false jmpSt 7 (Value.number 0) [] rfl⟩

/-- C2: an indexed array write at a non-negative integral `Number` index
`n` pads `elems` with `Empty` to at least `n + 1` entries, stores the
value at `elems[n]`, and sets `length = max(length, n + 1)`; afterwards
`length ≥ n + 1` and reading index `n` yields the written value.  The
hypothesis `length ≤ elems.len()` is the coherence invariant every array
the current VM builds satisfies (constructors set `length = elems.len()`;
both write paths re-establish it). -/
theorem array_indexed_write (a : ArrayValue) (q : Rat) (v : Value)
    (hint : (q.floor : Rat) = q) (hpos : 0 ≤ q)
    (hinv : a.length ≤ a.elems.length) :
    ∃ a', array_set_member a (.number q) v = some a' ∧
      a'.length = max a.length (q.floor.toNat + 1) ∧
      q.floor.toNat + 1 ≤ a'.elems.length ∧
      q.floor.toNat + 1 ≤ a'.length ∧
      array_get_index a' q.floor.toNat = some v := by
  have hset : array_set_member a (.number q) v = set_by_idx a q.floor.toNat v := by
    simp [array_set_member, hint, hpos]
  by_cases hc : a.length ≤ q.floor.toNat
  · set n := q.floor.toNat with hn
    have hlen : (padTo a.elems (n + 1)).length = max a.elems.length (n + 1) := by
      simp [padTo]
      omega
    have hn1 : n < (padTo a.elems (n + 1)).length := by omega
    have hsb : set_by_idx a n v =
        some { elems := (padTo a.elems (n + 1)).set n v, length := n + 1,
               obj := a.obj } := by
      unfold set_by_idx
      simp only [if_pos hc]
      rw [if_pos hn1]
    refine ⟨_, hset.trans hsb, ?_, ?_, ?_, ?_⟩
    · simp; omega
    · simp [hlen]
    · simp
    · unfold array_get_index
      rw [if_neg (by simp), List.get?_eq_getElem?]
      exact List.getElem?_set_eq_of_lt v hn1
  · set n := q.floor.toNat with hn
    have hn1 : n < a.elems.length := by omega
    have hsb : set_by_idx a n v =
        some { elems := a.elems.set n v, length := a.length, obj := a.obj } := by
      unfold set_by_idx
      simp only [if_neg hc]
      rw [if_pos hn1]
    refine ⟨_, hset.trans hsb, ?_, ?_, ?_, ?_⟩
    · simp; omega
    · simp; omega
    · simp; omega
    · unfold array_get_index
      rw [if_neg (by simp; omega), List.get?_eq_getElem?]
      exact List.getElem?_set_eq_of_lt v hn1

/-- Empty array for the C2 witness. -/
def emptyArr : ArrayValue := ⟨[], 0, fun _ => none⟩

/-- C2 witness: writing index 2 of an empty array. -/
theorem array_indexed_write_witness :
    ((2 : Rat).floor : Rat) = 2 ∧ (0 : Rat) ≤ 2 ∧ emptyArr.length ≤ emptyArr.elems.length ∧
    (∃ a', array_set_member emptyArr (.number 2) (Value.number 9) = some a' ∧
      a'.length = max emptyArr.length ((2 : Rat).floor.toNat + 1) ∧
      (2 : Rat).floor.toNat + 1 ≤ a'.elems.length ∧
      (2 : Rat).floor.toNat + 1 ≤ a'.length ∧
      array_get_index a' (2 : Rat).floor.toNat = some (Value.number 9)) :=
  ⟨by decide, by decide, by decide,
   array_indexed_write emptyArr 2 (Value.number 9) (by decide) (by decide) (by decide)⟩

/-- Three-element array used by the C3 counterexample. -/
def threeArr : ArrayValue :=
  ⟨[Value.number 10, Value.number 20, Value.number 30], 3, fun _ => none⟩

/-- C3 counterexample: writing `length = 1` to a three-element array does
NOT truncate the element sequence — `elems` still has 3 entries and index
2 still holds its old value, while `length` becomes 1.  This refutes the
claim that a `"length"` write "truncates or extends" the element
sequence: it never truncates. -/
theorem array_length_write_no_truncation :
    (array_set_member threeArr (.string "length") (.number 1)).map
        (fun a' => (a'.length, a'.elems.length, a'.elems.get? 2))
      = some (1, 3, some (Value.number 30)) := by
  rfl

/-- C3 as amended: a `"length"` write with a non-negative integral
`Number n` sets `length = n` and pads `elems` with `Empty` up to `n + 1`
entries when it is shorter, never truncating it; afterwards reading any
index `m ≥ n` yields `Undefined`. -/
theorem array_length_write (a : ArrayValue) (q : Rat)
    (hint : (q.floor : Rat) = q) (hpos : 0 ≤ q) :
    ∃ a', array_set_member a (.string "length") (.number q) = some a' ∧
      a'.length = q.floor.toNat ∧
      a'.elems = a.elems ++
        List.replicate (q.floor.toNat + 1 - a.elems.length) Value.empty ∧
      a.elems.length ≤ a'.elems.length ∧
      ∀ m, q.floor.toNat ≤ m → array_get_index a' m = some Value.undefined := by
  refine ⟨{ a with length := q.floor.toNat,
                   elems := padTo a.elems (q.floor.toNat + 1) },
          ?_, rfl, rfl, ?_, ?_⟩
  · simp [array_set_member, hint, hpos]
  · simp [padTo]
  · intro m hm
    unfold array_get_index
    rw [if_pos hm]

/-- One-element array for the C3 witness. -/
def oneArr : ArrayValue := ⟨[Value.number 1], 1, fun _ => none⟩

/-- C3 witness (amended claim): extending a one-element array to
`length = 3`. -/
theorem array_length_write_witness :
    ((3 : Rat).floor : Rat) = 3 ∧ (0 : Rat) ≤ 3 ∧
    (∃ a', array_set_member oneArr (.string "length") (.number 3) = some a' ∧
      a'.length = (3 : Rat).floor.toNat ∧
      a'.elems = oneArr.elems ++
        List.replicate ((3 : Rat).floor.toNat + 1 - oneArr.elems.length) Value.empty ∧
      oneArr.elems.length ≤ a'.elems.length ∧
      ∀ m, (3 : Rat).floor.toNat ≤ m → array_get_index a' m = some Value.undefined) :=
  ⟨by decide, by decide, array_length_write oneArr 3 (by decide) (by decide)⟩

/-- C5: mutual aliasing of `arguments` slots and declared parameters.
When slot `n` carries the parameter name `p`: reading `arguments[n]`
delegates to the live binding of `p`; writing `arguments[n]` stores into
the binding of `p` and is observed by both a binding read and an
`arguments[n]` read; and a direct write to the binding of `p` is observed
through `arguments[n]`. -/
theorem arguments_param_aliasing (co : CallObject) (n : Nat) (p : String)
    (w v : Value) (hslot : co.arguments.get? n = some (some p, w)) :
    co.get_arguments_nth_value n = co.get_local_value p ∧
    (∀ pr, co.vals p = some pr → co.get_arguments_nth_value n = .ok pr.val) ∧
    (co.set_arguments_nth_value n v).get_local_value p = .ok v ∧
    (co.set_arguments_nth_value n v).get_arguments_nth_value n = .ok v ∧
    (co.set_value p v).get_arguments_nth_value n = .ok v := by
  have h1 : co.get_arguments_nth_value n = co.get_local_value p := by
    unfold CallObject.get_arguments_nth_value
    rw [hslot]
  have hset : co.set_arguments_nth_value n v = co.set_value p v := by
    unfold CallObject.set_arguments_nth_value
    rw [hslot]
  have hlocal : (co.set_value p v).get_local_value p = .ok v := by
    simp [CallObject.get_local_value, CallObject.set_value, Property.new]
  have h5 : (co.set_value p v).get_arguments_nth_value n = .ok v := by
    unfold CallObject.get_arguments_nth_value
    have : (co.set_value p v).arguments = co.arguments := rfl
    rw [this, hslot]
    exact hlocal
  refine ⟨h1, ?_, ?_, ?_, h5⟩
  · intro pr hpr
    rw [h1]
    simp [CallObject.get_local_value, hpr]
  · rw [hset]
    exact hlocal
  · rw [hset]
    exact h5

/-- Call object for the C5 witness: one argument slot aliased to the
parameter `x`, which is bound to `Number 1`. -/
def aliasCo : CallObject :=
  { vals := fun s => if s = "x" then some (Property.new (Value.number 1)) else none,
    rest_params := none,
    arguments := [(some "x", Value.number 1)],
    this := Value.undefined }

/-- C5 witness: slot 0 of `aliasCo` aliases parameter `x`. -/
theorem arguments_param_aliasing_witness :
    aliasCo.arguments.get? 0 = some (some "x", Value.number 1) ∧
    (aliasCo.get_arguments_nth_value 0 = aliasCo.get_local_value "x" ∧
     (∀ pr, aliasCo.vals "x" = some pr →
        aliasCo.get_arguments_nth_value 0 = .ok pr.val) ∧
     (aliasCo.set_arguments_nth_value 0 (Value.number 7)).get_local_value "x"
        = .ok (Value.number 7) ∧
     (aliasCo.set_arguments_nth_value 0 (Value.number 7)).get_arguments_nth_value 0
        = .ok (Value.number 7) ∧
     (aliasCo.set_value "x" (Value.number 7)).get_arguments_nth_value 0
        = .ok (Value.number 7)) :=
  ⟨rfl, arguments_param_aliasing aliasCo 0 "x" (Value.number 1) (Value.number 7) rfl⟩

/-- C7 counterexample: `Bool(true)` and `Bool(true)` are like-typed, yet
`Eq` returns the `Unimplemented` error instead of pushing a Bool — the
handlers compare only `Number`/`Number` and `String`/`String` pairs, not
all like-typed pairs. -/
theorem eq_like_typed_bool_unimplemented :
    valueTag (Value.bool true) = valueTag (Value.bool true) ∧
    eq_op (Value.bool true) (Value.bool true) = .error .unimplemented :=
  ⟨rfl, rfl⟩

/-- C7 as amended: `Eq` pushes a Bool exactly for `Number`/`Number` and
`String`/`String` pairs, and `Ne` exactly for those plus `Null`/`Null`
and `Undefined`/`Undefined` (each yielding `false`); every other pair —
cross-typed or like-typed of any other kind — returns the distinguished
`Unimplemented` error.  Supported pairs push the comparison's result. -/
theorem eq_ne_dispatch (l r : Value) :
    ((∃ b, eq_op l r = .ok (Value.bool b)) ↔
      (∃ a b, l = Value.number a ∧ r = Value.number b) ∨
      (∃ s t, l = Value.string s ∧ r = Value.string t)) ∧
    ((∃ b, ne_op l r = .ok (Value.bool b)) ↔
      (∃ a b, l = Value.number a ∧ r = Value.number b) ∨
      (∃ s t, l = Value.string s ∧ r = Value.string t) ∨
      (l = Value.null ∧ r = Value.null) ∨
      (l = Value.undefined ∧ r = Value.undefined)) ∧
    (¬((∃ a b, l = Value.number a ∧ r = Value.number b) ∨
       (∃ s t, l = Value.string s ∧ r = Value.string t)) →
      eq_op l r = .error .unimplemented) ∧
    (¬((∃ a b, l = Value.number a ∧ r = Value.number b) ∨
       (∃ s t, l = Value.string s ∧ r = Value.string t) ∨
       (l = Value.null ∧ r = Value.null) ∨
       (l = Value.undefined ∧ r = Value.undefined)) →
      ne_op l r = .error .unimplemented) ∧
    (∀ a b, l = Value.number a → r = Value.number b →
      eq_op l r = .ok (Value.bool (decide (a = b))) ∧
      ne_op l r = .ok (Value.bool (!decide (a = b)))) ∧
    (∀ s t, l = Value.string s → r = Value.string t →
      eq_op l r = .ok (Value.bool (decide (s = t))) ∧
      ne_op l r = .ok (Value.bool (!decide (s = t)))) ∧
    (l = Value.null → r = Value.null →
      ne_op l r = .ok (Value.bool false)) ∧
    (l = Value.undefined → r = Value.undefined →
      ne_op l r = .ok (Value.bool false)) := by
  cases l <;> cases r <;> simp [eq_op, ne_op] <;> exact em _

/-- The truncated remainder is smaller in magnitude than the divisor. -/
theorem natAbs_tmod_lt (a : Int) {b : Int} (hb : b ≠ 0) :
    (a.tmod b).natAbs < b.natAbs := by
  have hpos : 0 < b.natAbs := Int.natAbs_pos.mpr hb
  cases a with
  | ofNat m =>
    cases b with
    | ofNat n =>
      simpa [Int.tmod] using Nat.mod_lt _ (by simpa using hpos)
    | negSucc n =>
      simpa [Int.tmod] using Nat.mod_lt _ (Nat.succ_pos n)
  | negSucc m =>
    cases b with
    | ofNat n =>
      simpa [Int.tmod] using Nat.mod_lt _ (by simpa using hpos)
    | negSucc n =>
      simpa [Int.tmod] using Nat.mod_lt _ (Nat.succ_pos n)

/-- C8 counterexample: `Rem` on `Number 5` and `Number 0` does not push
any value — `0` casts to the `i64` zero and the Rust `%` panics on a zero
divisor, crashing the interpreter — so the claim does not hold for every
pair of `Number` operands. -/
theorem rem_zero_divisor_crash :
    rem_op (Value.number 5) (Value.number 0) = BinResult.crash := by
  decide

/-- C8 as amended: for `Number` operands whose divisor casts to a nonzero
`i64`, excluding the overflowing pair `(i64::MIN, -1)`, `Rem` pushes the
`Number` obtained by casting both operands to signed 64-bit integers,
taking the truncating 64-bit remainder, and converting back to a float:
the result is an integer `m` with `b' * (a' tdiv b') + m = a'` and
`|m| < |b'|` for the cast operands `a'`, `b'`.  (When the divisor casts
to zero the interpreter panics instead.) -/
theorem rem_truncating_semantics (a b : Rat)
    (hb : f64_to_i64 b ≠ 0)
    (hov : ¬(f64_to_i64 a = i64Min ∧ f64_to_i64 b = -1)) :
    ∃ m : Int,
      rem_op (Value.number a) (Value.number b)
        = BinResult.ok (Value.number (m : Rat)) ∧
      m = (f64_to_i64 a).tmod (f64_to_i64 b) ∧
      f64_to_i64 b * ((f64_to_i64 a).tdiv (f64_to_i64 b)) + m = f64_to_i64 a ∧
      m.natAbs < (f64_to_i64 b).natAbs := by
  refine ⟨(f64_to_i64 a).tmod (f64_to_i64 b), ?_, rfl,
          Int.tdiv_add_tmod .., natAbs_tmod_lt _ hb⟩
  simp [rem_op, i64_rem, hb, hov]

/-- C8 witness: `5.5 % 2` computes the integer remainder `1`, not the
floating remainder `1.5`. -/
theorem rem_truncating_semantics_witness :
    f64_to_i64 2 ≠ 0 ∧
    ¬(f64_to_i64 (mkRat 11 2) = i64Min ∧ f64_to_i64 2 = -1) ∧
    (∃ m : Int,
      rem_op (Value.number (mkRat 11 2)) (Value.number 2)
        = BinResult.ok (Value.number (m : Rat)) ∧
      m = (f64_to_i64 (mkRat 11 2)).tmod (f64_to_i64 2) ∧
      f64_to_i64 2 * ((f64_to_i64 (mkRat 11 2)).tdiv (f64_to_i64 2)) + m
        = f64_to_i64 (mkRat 11 2) ∧
      m.natAbs < (f64_to_i64 2).natAbs) :=
  ⟨by decide, by decide,
   rem_truncating_semantics (mkRat 11 2) 2 (by decide) (by decide)⟩


/-- Definitional equation of `chain_set_value_if_exist` on a nonempty
chain, exposing the occupied/vacant branching. -/
theorem chain_set_value_if_exist_cons (co : CallObject) (rest : List CallObject)
    (name : String) (v : Value) :
    chain_set_value_if_exist (co :: rest) name v =
      match co.vals name with
      | some _ => co.set_value name v :: rest
      | none =>
        match rest with
        | [] => [co.set_value name v]
        | _ :: _ => co :: chain_set_value_if_exist rest name v := rfl

/-- Definitional equation of `chain_get_value` on a nonempty chain. -/
theorem chain_get_value_cons (co : CallObject) (rest : List CallObject)
    (name : String) :
    chain_get_value (co :: rest) name =
      match co.vals name with
      | some p => Except.ok p.val
      | none => chain_get_value rest name := rfl

/-- Definitional equation of `firstBindingIdx` on a nonempty chain. -/
theorem firstBindingIdx_cons (co : CallObject) (rest : List CallObject)
    (name : String) :
    firstBindingIdx (co :: rest) name =
      if (co.vals name).isSome then some 0
      else (firstBindingIdx rest name).map (· + 1) := rfl

/-- Looking up a name on a call object right after `set_value` of that
name yields the written value. -/
theorem vals_set_value_self (co : CallObject) (name : String) (v : Value) :
    (co.set_value name v).vals name = some (Property.new v) := by
  simp [CallObject.set_value]

/-- C6: `set_value_if_exist` overwrites the binding in the nearest call
object of the chain that already binds the name; when no member of the
chain binds it, the binding is installed in the root (the last element);
in both cases a subsequent chain-walking lookup of the name yields the
written value. -/
theorem set_value_if_exist_nearest (chain : List CallObject) (name : String)
    (v : Value) (h : chain ≠ []) :
    (∀ i, firstBindingIdx chain name = some i →
        chain_set_value_if_exist chain name v =
          chain.set i ((chain.getD i default).set_value name v)) ∧
    (firstBindingIdx chain name = none →
        chain_set_value_if_exist chain name v =
          chain.dropLast ++ [(chain.getLastD default).set_value name v]) ∧
    chain_get_value (chain_set_value_if_exist chain name v) name = .ok v := by
  induction chain with
  | nil => exact absurd rfl h
  | cons co rest ih =>
    by_cases hb : (co.vals name).isSome
    · obtain ⟨p, hp⟩ := Option.isSome_iff_exists.mp hb
      have hstep : chain_set_value_if_exist (co :: rest) name v =
          co.set_value name v :: rest := by
        rw [chain_set_value_if_exist_cons, hp]
      refine ⟨?_, ?_, ?_⟩
      · intro i hi
        rw [firstBindingIdx_cons, if_pos hb] at hi
        obtain rfl : i = 0 := (Option.some_inj.mp hi).symm
        rw [hstep]
        rfl
      · intro hnone
        rw [firstBindingIdx_cons, if_pos hb] at hnone
        exact absurd hnone (by simp)
      · rw [hstep, chain_get_value_cons, vals_set_value_self]
        rfl
    · have hco : co.vals name = none := Option.not_isSome_iff_eq_none.mp hb
      cases rest with
      | nil =>
        have hstep : chain_set_value_if_exist [co] name v =
            [co.set_value name v] := by
          rw [chain_set_value_if_exist_cons, hco]
        refine ⟨?_, ?_, ?_⟩
        · intro i hi
          rw [firstBindingIdx_cons, if_neg hb] at hi
          simp [firstBindingIdx] at hi
        · intro _
          rw [hstep]
          rfl
        · rw [hstep, chain_get_value_cons, vals_set_value_self]
          rfl
      | cons co2 rest2 =>
        have hne : co2 :: rest2 ≠ [] := by simp
        obtain ⟨ih1, ih2, ih3⟩ := ih hne
        have hstep : chain_set_value_if_exist (co :: co2 :: rest2) name v =
            co :: chain_set_value_if_exist (co2 :: rest2) name v := by
          rw [chain_set_value_if_exist_cons, hco]
        have hfb : firstBindingIdx (co :: co2 :: rest2) name =
            (firstBindingIdx (co2 :: rest2) name).map (· + 1) := by
          rw [firstBindingIdx_cons, if_neg hb]
        refine ⟨?_, ?_, ?_⟩
        · intro i hi
          rw [hfb] at hi
          obtain ⟨j, hj, hij⟩ := Option.map_eq_some'.mp hi
          subst hij
          rw [hstep, ih1 j hj]
          rfl
        · intro hnone
          rw [hfb] at hnone
          have hrest : firstBindingIdx (co2 :: rest2) name = none :=
            Option.map_eq_none'.mp hnone
          rw [hstep, ih2 hrest]
          rfl
        · rw [hstep, chain_get_value_cons, hco]
          exact ih3

/-- Root-less call object for the C6 witness. -/
def outerCo : CallObject := CallObject.new Value.undefined

/-- Root call object for the C6 witness, binding `y`. -/
def rootCo : CallObject :=
  { vals := fun s => if s = "y" then some (Property.new (Value.number 1)) else none,
    rest_params := none, arguments := [], this := Value.undefined }

/-- C6 witness: a two-element chain whose root binds `y`. -/
theorem set_value_if_exist_nearest_witness :
    ([outerCo, rootCo] ≠ []) ∧
    ((∀ i, firstBindingIdx [outerCo, rootCo] "y" = some i →
        chain_set_value_if_exist [outerCo, rootCo] "y" (Value.number 2) =
          [outerCo, rootCo].set i
            (([outerCo, rootCo].getD i default).set_value "y" (Value.number 2))) ∧
     (firstBindingIdx [outerCo, rootCo] "y" = none →
        chain_set_value_if_exist [outerCo, rootCo] "y" (Value.number 2) =
          [outerCo, rootCo].dropLast ++
            [([outerCo, rootCo].getLastD default).set_value "y" (Value.number 2)]) ∧
     chain_get_value (chain_set_value_if_exist [outerCo, rootCo] "y" (Value.number 2))
        "y" = .ok (Value.number 2)) :=
  ⟨by simp, set_value_if_exist_nearest [outerCo, rootCo] "y" (Value.number 2) (by simp)⟩


/-- Behaviour of `return_step` on a state whose history starts with
`(previous_sp, return_pc)`. -/
theorem return_step_cons (st : VMState) (previous_sp : Nat) (return_pc : Int)
    (rest : List (Nat × Int))
    (hh : st.history = (previous_sp, return_pc) :: rest) :
    return_step st =
      if previous_sp + 1 ≤ st.stack.length then
        some { stack := st.stack.take previous_sp
                          ++ st.stack.drop (st.stack.length - 1),
               scope := st.scope, pc := return_pc, history := rest }
      else none := by
  have e : return_step st =
      match st.history with
      | [] => none
      | (psp, rpc) :: r =>
        if psp + 1 ≤ st.stack.length then
          some { stack := st.stack.take psp
                            ++ st.stack.drop (st.stack.length - 1),
                 scope := st.scope, pc := rpc, history := r }
        else none := rfl
  rw [e, hh]

/-- C1: a matched Call/Return pair has net operand-stack effect `-argc`.
`call_enter` pops the callee and the `argc` actuals and records
`(previous_sp, return_pc)`; whatever the body does to the operand stack —
abstracted by `body`, constrained only to leave its history frame and
scope intact and at least one own stack entry, as any body that completes
via `Return` does — `return_step` removes `[previous_sp, len - 1)` while
keeping the top of stack, restores `pc` to the instruction after the
`Call`, and leaves `stack.len()` exactly `argc` below its value before
the `Call`. -/
theorem call_return_net_effect
    (st : VMState) (argc : Nat) (co : CallObject) (body : VMState → VMState)
    (st1 : VMState)
    (henter : call_enter st argc co = some st1)
    (hhist : (body st1).history = st1.history)
    (hscope : (body st1).scope = st1.scope)
    (hlen : st.stack.length - argc ≤ (body st1).stack.length) :
    ∃ st2, return_step (body st1) = some st2 ∧
      st2.stack.length = st.stack.length - argc ∧
      st2.stack.getLast? = (body st1).stack.getLast? ∧
      st2.pc = st.pc + 5 ∧
      (call_exit st2).scope = st.scope ∧
      st2.history = st.history := by
  have hstk : argc + 1 ≤ st.stack.length := by
    by_contra hc
    simp [call_enter, hc] at henter
  rw [call_enter, if_pos hstk] at henter
  have heq : st1 =
      { stack := st.stack.take (st.stack.length - (argc + 1)),
        scope := co :: st.scope,
        pc := 0,
        history := (st.stack.length - (argc + 1), st.pc + 5) :: st.history } :=
    (Option.some_inj.mp henter).symm
  have h1hist : st1.history
      = (st.stack.length - (argc + 1), st.pc + 5) :: st.history := by rw [heq]
  have h1scope : st1.scope = co :: st.scope := by rw [heq]
  have hsp1 : st.stack.length - (argc + 1) + 1 ≤ (body st1).stack.length := by
    omega
  have hret := return_step_cons (body st1) (st.stack.length - (argc + 1))
    (st.pc + 5) st.history (by rw [hhist, h1hist])
  rw [if_pos hsp1] at hret
  have hs2len : 1 ≤ (body st1).stack.length := by omega
  obtain ⟨ys, y, hy⟩ : ∃ ys y, (body st1).stack = ys ++ [y] := by
    rcases List.eq_nil_or_concat (body st1).stack with hnil | ⟨ys, y, hy⟩
    · rw [hnil] at hs2len
      simp at hs2len
    · exact ⟨ys, y, by simpa [List.concat_eq_append] using hy⟩
  have hdrop : (body st1).stack.drop ((body st1).stack.length - 1) = [y] := by
    rw [hy]
    have hl : (ys ++ [y]).length - 1 = ys.length := by simp
    rw [hl, List.drop_left]
  refine ⟨_, hret, ?_, ?_, rfl, ?_, rfl⟩
  · rw [hdrop]
    simp
    omega
  · rw [hdrop]
    simp [hy]
  · show ((body st1).scope).tail = st.scope
    rw [hscope, h1scope]
    rfl

/-- Pre-call state for the C1 witness: one spare value, one actual, and
the callee on the stack. -/
def callSt : VMState :=
  ⟨[Value.number 1, Value.number 2, Value.function 0], [], 7, []⟩

/-- Callee call object for the C1 witness. -/
def callCo : CallObject := CallObject.new Value.undefined

/-- Function body for the C1 witness: pushes one return value. -/
def callBody : VMState → VMState :=
  fun s => { s with stack := s.stack ++ [Value.number 9] }

/-- State right after `call_enter` for the C1 witness. -/
def callSt1 : VMState := ⟨[Value.number 1], [callCo], 0, [(1, 12)]⟩

/-- C1 witness: `Call(1)` into a body that pushes `Number 9`; the net
stack effect of the matched pair is `-1`. -/
theorem call_return_net_effect_witness :
    call_enter callSt 1 callCo = some callSt1 ∧
    (callBody callSt1).history = callSt1.history ∧
    (callBody callSt1).scope = callSt1.scope ∧
    callSt.stack.length - 1 ≤ (callBody callSt1).stack.length ∧
    (∃ st2, return_step (callBody callSt1) = some st2 ∧
      st2.stack.length = callSt.stack.length - 1 ∧
      st2.stack.getLast? = (callBody callSt1).stack.getLast? ∧
      st2.pc = callSt.pc + 5 ∧
      (call_exit st2).scope = callSt.scope ∧
      st2.history = callSt.history) :=
  ⟨rfl, rfl, rfl, by decide,
   call_return_net_effect callSt 1 callCo callBody callSt1 rfl rfl rfl (by decide)⟩
